import Mathlib

/-!
# Verification of the multipart-encoding-server codec-and-persist engine

Shallow embedding of `processEncodedData` (the "Codec-and-Persist Engine",
`decodeAndStore` in the design document) from `multipartServer.js`, together
with the Node.js `Buffer.from(string, encoding)` semantics it relies on.

A JavaScript string is modelled as a list of UTF-16 code units (`JsStr`),
bytes as natural numbers below 256, and the engine as a pure function from
the request data (payload, encoding name, field name, extension hint),
plus the ambient timestamp and the outcome of the filesystem write, to the
returned result record and the list of files written during the call.
Floating-point presentation fields of the JS result object
(`compressionRatio`) and the constant flags `success`/`decoded` are not
modelled; success and failure are the two constructors of `Outcome`.
-/

/-- A JavaScript string: a finite sequence of UTF-16 code units. -/
abbrev JsStr := List Nat

/-- UTF-16 code units of one Unicode scalar value (surrogate pair for
astral code points). -/
def utf16Units (c : Char) : List Nat :=
  let n := c.toNat
  if n < 0x10000 then [n]
  else [0xD800 + (n - 0x10000) / 0x400, 0xDC00 + (n - 0x10000) % 0x400]

/-- The `JsStr` denoted by a Lean string literal. -/
def jsOfString (s : String) : JsStr :=
  s.data.flatMap utf16Units

/-- Node `Buffer.from(data, 'binary')` (alias latin1): each code unit's low byte. -/
def bufferFromBinary (s : JsStr) : List Nat :=
  s.map (· % 256)

/-- Node `Buffer.from(data, 'ascii')`: in Node, encoding a string as `'ascii'`
is equivalent to `'latin1'` — each code unit's low byte. -/
def bufferFromAscii (s : JsStr) : List Nat :=
  s.map (· % 256)

/-- Node `Buffer.from(data, 'utf16le')` or `'ucs2'`: two little-endian bytes per
code unit, surrogates written verbatim. -/
def bufferFromUtf16le (s : JsStr) : List Nat :=
  s.flatMap (fun u => [u % 256, u / 256 % 256])

def isHighSurrogate (u : Nat) : Bool := 0xD800 ≤ u && u ≤ 0xDBFF

def isLowSurrogate (u : Nat) : Bool := 0xDC00 ≤ u && u ≤ 0xDFFF

/-- UTF-8 bytes of one Unicode scalar value. -/
def utf8Bytes (n : Nat) : List Nat :=
  if n < 0x80 then [n]
  else if n < 0x800 then [0xC0 + n / 0x40, 0x80 + n % 0x40]
  else if n < 0x10000 then
    [0xE0 + n / 0x1000, 0x80 + n / 0x40 % 0x40, 0x80 + n % 0x40]
  else
    [0xF0 + n / 0x40000, 0x80 + n / 0x1000 % 0x40, 0x80 + n / 0x40 % 0x40,
     0x80 + n % 0x40]

/-- Node `Buffer.from(data, 'utf8')`: well-formed surrogate pairs are combined
into one astral scalar, lone surrogates become the replacement character
`EF BF BD`. -/
def bufferFromUtf8 : JsStr → List Nat
  | [] => []
  | [u] =>
    if isHighSurrogate u || isLowSurrogate u then [0xEF, 0xBF, 0xBD]
    else utf8Bytes u
  | u :: v :: rest =>
    if isHighSurrogate u then
      if isLowSurrogate v then
        utf8Bytes (0x10000 + (u - 0xD800) * 0x400 + (v - 0xDC00)) ++
          bufferFromUtf8 rest
      else [0xEF, 0xBF, 0xBD] ++ bufferFromUtf8 (v :: rest)
    else if isLowSurrogate u then
      [0xEF, 0xBF, 0xBD] ++ bufferFromUtf8 (v :: rest)
    else utf8Bytes u ++ bufferFromUtf8 (v :: rest)

/-- Code units matched by the character class `[0-9a-fA-F]`. -/
def isHexDigit (u : Nat) : Bool :=
  (0x30 ≤ u && u ≤ 0x39) || (0x61 ≤ u && u ≤ 0x66) || (0x41 ≤ u && u ≤ 0x46)

/-- Numeric value of a hex digit code unit. -/
def hexVal (u : Nat) : Nat :=
  if 0x30 ≤ u && u ≤ 0x39 then u - 0x30
  else if 0x61 ≤ u && u ≤ 0x66 then u - 0x61 + 10
  else u - 0x41 + 10

/-- The test `/^[0-9a-fA-F]+$/.test(data)` from the hex branch. -/
def hexFormatOk (s : JsStr) : Bool :=
  !s.isEmpty && s.all isHexDigit

/-- Node `Buffer.from(data, 'hex')`: decode consecutive digit pairs, stopping at
the first invalid pair; a lone trailing digit is dropped. -/
def nodeHexDecode : JsStr → List Nat
  | a :: b :: rest =>
    if isHexDigit a && isHexDigit b then
      (hexVal a * 16 + hexVal b) :: nodeHexDecode rest
    else []
  | _ => []

/-- Code units matched by the JS regex class `\s`. -/
def isJsWhitespace (u : Nat) : Bool :=
  (9 ≤ u && u ≤ 13) || u == 32 || u == 0xA0 || u == 0x1680 ||
  (0x2000 ≤ u && u ≤ 0x200A) || u == 0x2028 || u == 0x2029 ||
  u == 0x202F || u == 0x205F || u == 0x3000 || u == 0xFEFF

/-- JS `data.replace` of every `\s` match by nothing, from the base64 branch. -/
def stripWs (s : JsStr) : JsStr :=
  s.filter (fun u => !isJsWhitespace u)

/-- Code units matched by the character class `[A-Za-z0-9+/]`. -/
def isB64Char (u : Nat) : Bool :=
  (0x41 ≤ u && u ≤ 0x5A) || (0x61 ≤ u && u ≤ 0x7A) ||
  (0x30 ≤ u && u ≤ 0x39) || u == 0x2B || u == 0x2F

/-- Sextet value of a standard-alphabet base64 code unit. -/
def b64Val (u : Nat) : Nat :=
  if 0x41 ≤ u && u ≤ 0x5A then u - 0x41
  else if 0x61 ≤ u && u ≤ 0x7A then u - 0x61 + 26
  else if 0x30 ≤ u && u ≤ 0x39 then u - 0x30 + 52
  else if u == 0x2B then 62
  else 63

/-- The test `/^[A-Za-z0-9+/]*={0,2}$/.test(cleanData)`: a (possibly empty)
run of alphabet characters followed by at most two `=`. -/
def b64FormatOk (s : JsStr) : Bool :=
  let tail := s.drop (s.takeWhile isB64Char).length
  decide (tail.length ≤ 2) && tail.all (· == 0x3D)

/-- Group four sextets into three bytes; a trailing group of three sextets
yields two bytes, of two sextets one byte, and a lone sextet nothing. -/
def sextetsToBytes : List Nat → List Nat
  | a :: b :: c :: d :: rest =>
    (a * 4 + b / 16) :: (b % 16 * 16 + c / 4) :: (c % 4 * 64 + d) ::
      sextetsToBytes rest
  | [a, b, c] => [a * 4 + b / 16, b % 16 * 16 + c / 4]
  | [a, b] => [a * 4 + b / 16]
  | _ => []

/-- Node `Buffer.from(data, 'base64')`: read sextets until the first character
outside the standard alphabet (in particular until the first `=`) and group
them into bytes. Node's base64 decoder is forgiving and never throws. -/
def nodeBase64Decode (s : JsStr) : List Nat :=
  sextetsToBytes ((s.takeWhile isB64Char).map b64Val)

/-- Node `Buffer.from(_, 'base64')` wrapped in the result type of a JS expression
that may throw: it never does. -/
def nodeBase64Decode? (s : JsStr) : Except String (List Nat) :=
  .ok (nodeBase64Decode s)

/-- JS substitution of each `-` by `+` and each `_` by `/` in `cleanData`. -/
def urlSafeSubst (s : JsStr) : JsStr :=
  s.map (fun u => if u == 0x2D then 0x2B else if u == 0x5F then 0x2F else u)

/-- The inner `try`/`catch` of the base64 branch: attempt a standard-alphabet
decode, on failure retry once after the URL-safe substitution, and if both
attempts fail re-throw with the first error's message. -/
def base64Attempt (cleanData : JsStr) : Except String (List Nat) :=
  match nodeBase64Decode? cleanData with
  | .ok b => .ok b
  | .error e1 =>
    match nodeBase64Decode? (urlSafeSubst cleanData) with
    | .ok b => .ok b
    | .error _ => .error ("Base64 decoding failed: " ++ e1)

/-- The `switch (encoding)` of `processEncodedData` (decode dispatch):
produce the decoded bytes or the message of the thrown `Error`. -/
def decodeStep (encoding : String) (data : JsStr) : Except String (List Nat) :=
  if encoding = "binary" then .ok (bufferFromBinary data)
  else if encoding = "ascii" then .ok (bufferFromAscii data)
  else if encoding = "utf8" ∨ encoding = "utf-8" then .ok (bufferFromUtf8 data)
  else if encoding = "utf-16le" then .ok (bufferFromUtf16le data)
  else if encoding = "ucs2" then .ok (bufferFromUtf16le data)
  else if encoding = "hex" then
    if hexFormatOk data then .ok (nodeHexDecode data)
    else .error "Invalid hexadecimal string"
  else if encoding = "base64" then
    let cleanData := stripWs data
    if !b64FormatOk cleanData then .error "Invalid base64 format"
    else if cleanData.length % 4 ≠ 0 then .error "Invalid base64 string length"
    else base64Attempt cleanData
  else .error ("Unsupported encoding: " ++ encoding)

/-- Code units matched by the class `[a-zA-Z0-9.]` kept by
`ext.replace(/[^a-zA-Z0-9.]/g, '')`. -/
def extAllowed (u : Nat) : Bool :=
  (0x41 ≤ u && u ≤ 0x5A) || (0x61 ≤ u && u ≤ 0x7A) ||
  (0x30 ≤ u && u ≤ 0x39) || u == 0x2E

/-- The hint branch of the extension logic: prepend `.` unless the hint
already starts with one, then delete every disallowed character. -/
def normalizeHint (h : JsStr) : JsStr :=
  let e := if h.head? = some 0x2E then h else 0x2E :: h
  e.filter extAllowed

/-- JS truthiness of the `fileExtension` argument (`null` and the empty
string are falsy). -/
def hintTruthy : Option JsStr → Bool
  | none => false
  | some h => !h.isEmpty

/-- Lines 113–136 of the engine: determine the extension from the hint, or
for base64 without a hint by sniffing the decoded header, else `.bin`.
Out-of-range header reads (`undefined` in JS) are modelled by the sentinel
256, which equals no byte. -/
def determineExt (hint : Option JsStr) (encoding : String)
    (decoded : List Nat) : JsStr :=
  let base := if hintTruthy hint then normalizeHint (hint.getD []) else jsOfString ".bin"
  if !hintTruthy hint ∧ encoding = "base64" then
    let h := fun i => decoded.getD i 256
    if h 0 == 0xFF && h 1 == 0xD8 && h 2 == 0xFF then jsOfString ".jpg"
    else if h 0 == 0x89 && h 1 == 0x50 && h 2 == 0x4E && h 3 == 0x47 then
      jsOfString ".png"
    else if h 0 == 0x47 && h 1 == 0x49 && h 2 == 0x46 then jsOfString ".gif"
    else if h 0 == 0x42 && h 1 == 0x4D then jsOfString ".bmp"
    else base
  else base

/-- The generated filename `${Date.now()}-${fieldname}-${encoding}${ext}`
inside the upload directory, kept as its four components. -/
structure FileName where
  now : Nat
  fieldname : String
  encoding : String
  ext : JsStr
deriving DecidableEq, Repr

/-- A file written by the engine: its name and its byte content. -/
structure StoredFile where
  name : FileName
  content : List Nat
deriving DecidableEq, Repr

/-- The success result object (`success: true`): fieldname, encoding,
decoded size, stored path and the payload's code-unit length. -/
structure SuccessRecord where
  fieldname : String
  encoding : String
  size : Nat
  path : FileName
  originalSize : Nat
deriving DecidableEq, Repr

/-- The error result object (`success: false`). -/
structure FailureRecord where
  fieldname : String
  encoding : String
  error : String
deriving DecidableEq, Repr

/-- `DecodeOutcome` of the design document. -/
inductive Outcome
  | success : SuccessRecord → Outcome
  | failure : FailureRecord → Outcome
deriving DecidableEq, Repr

/-- The message of the outer `catch`:
`Failed to process ${encoding} data: ${e.message}`. -/
def failMsg (encoding msg : String) : String :=
  "Failed to process " ++ encoding ++ " data: " ++ msg

/-- The engine `processEncodedData(data, encoding, fieldname, fileExtension)`.
`now` is the ambient `Date.now()`; `writeError` is `none` when
`fs.writeFileSync` succeeds and `some msg` when it throws `msg` (a failed
write writes nothing). Returns the JS result object together with the
files written during the call. -/
def processEncodedData (data : JsStr) (encoding : String) (fieldname : String)
    (fileExtension : Option JsStr) (now : Nat) (writeError : Option String) :
    Outcome × List StoredFile :=
  match decodeStep encoding data with
  | .error msg => (.failure ⟨fieldname, encoding, failMsg encoding msg⟩, [])
  | .ok decodedData =>
    if decodedData.length = 0 then
      (.failure ⟨fieldname, encoding, failMsg encoding "Decoded data is empty"⟩, [])
    else
      let ext := determineExt fileExtension encoding decodedData
      let fname : FileName := ⟨now, fieldname, encoding, ext⟩
      match writeError with
      | some ioMsg =>
        (.failure ⟨fieldname, encoding, failMsg encoding ioMsg⟩, [])
      | none =>
        (.success ⟨fieldname, encoding, decodedData.length, fname, data.length⟩,
         [⟨fname, decodedData⟩])

/-! ## Canonical encoders for the round-trip property

The design document's testable property quantifies over byte sequences
`B` representable in an encoding `E` and requires decoding the canonical
textual encoding of `B` to return `B`. The encoders below produce that
canonical text for each supported encoding. -/

/-- Canonical Binary text of a byte sequence: one code unit per byte
(valid range 0–255). -/
def encodeBinary (B : List Nat) : JsStr := B

/-- Canonical ASCII text of a byte sequence: one code unit per byte
(valid range 0–127). -/
def encodeAscii (B : List Nat) : JsStr := B

/-- Lowercase hex digit of a value below 16. -/
def hexDigitChar (n : Nat) : Nat :=
  if n < 10 then 0x30 + n else 0x61 + (n - 10)

/-- Canonical hex text of a byte sequence: two lowercase digits per byte. -/
def encodeHex (B : List Nat) : JsStr :=
  B.flatMap (fun b => [hexDigitChar (b / 16), hexDigitChar (b % 16)])

/-- Canonical UTF-16LE text of an even-length byte sequence: one code unit
per little-endian byte pair. -/
def encodeUtf16le : List Nat → JsStr
  | b0 :: b1 :: rest => (b0 + 256 * b1) :: encodeUtf16le rest
  | _ => []

/-- Code unit of the standard base64 alphabet at a sextet index. -/
def b64Char (n : Nat) : Nat :=
  (jsOfString
    "ABCDEFGHIJKLMNOPQRSTUVWXYZabcdefghijklmnopqrstuvwxyz0123456789+/").getD
    n 0x41

/-- Group bytes into sextets, three bytes to four sextets; a trailing
pair yields three sextets and a trailing single byte two. -/
def bytesToSextets : List Nat → List Nat
  | a :: b :: c :: rest =>
    (a / 4) :: (a % 4 * 16 + b / 16) :: (b % 16 * 4 + c / 64) :: (c % 64) ::
      bytesToSextets rest
  | [a, b] => [a / 4, a % 4 * 16 + b / 16, b % 16 * 4]
  | [a] => [a / 4, a % 4 * 16]
  | [] => []

/-- Padding of a canonical base64 text for a byte count. -/
def b64Pad (n : Nat) : JsStr :=
  List.replicate ((3 - n % 3) % 3) 0x3D

/-- Canonical standard-alphabet base64 text of a byte sequence, with
padding. -/
def encodeBase64 (B : List Nat) : JsStr :=
  (bytesToSextets B).map b64Char ++ b64Pad B.length

/-- Continuation byte of a UTF-8 sequence. -/
def isCont (b : Nat) : Bool := 0x80 ≤ b && b ≤ 0xBF

/-- Continuation of a two-byte UTF-8 sequence led by `b1`. -/
def utf8ParseTwo (b1 : Nat) : List Nat → Option (Nat × List Nat)
  | b2 :: rest2 =>
    if isCont b2 then
      if 0x80 ≤ (b1 - 0xC0) * 0x40 + (b2 - 0x80) then
        some ((b1 - 0xC0) * 0x40 + (b2 - 0x80), rest2)
      else none
    else none
  | _ => none

/-- Continuation of a three-byte UTF-8 sequence led by `b1`. -/
def utf8ParseThree (b1 : Nat) : List Nat → Option (Nat × List Nat)
  | b2 :: b3 :: rest2 =>
    if isCont b2 && isCont b3 then
      if 0x800 ≤ (b1 - 0xE0) * 0x1000 + (b2 - 0x80) * 0x40 + (b3 - 0x80) ∧
          ¬(0xD800 ≤ (b1 - 0xE0) * 0x1000 + (b2 - 0x80) * 0x40 + (b3 - 0x80) ∧
            (b1 - 0xE0) * 0x1000 + (b2 - 0x80) * 0x40 + (b3 - 0x80) ≤ 0xDFFF) then
        some ((b1 - 0xE0) * 0x1000 + (b2 - 0x80) * 0x40 + (b3 - 0x80), rest2)
      else none
    else none
  | _ => none

/-- Continuation of a four-byte UTF-8 sequence led by `b1`. -/
def utf8ParseFour (b1 : Nat) : List Nat → Option (Nat × List Nat)
  | b2 :: b3 :: b4 :: rest2 =>
    if isCont b2 && isCont b3 && isCont b4 then
      if 0x10000 ≤ (b1 - 0xF0) * 0x40000 + (b2 - 0x80) * 0x1000 +
            (b3 - 0x80) * 0x40 + (b4 - 0x80) ∧
          (b1 - 0xF0) * 0x40000 + (b2 - 0x80) * 0x1000 +
            (b3 - 0x80) * 0x40 + (b4 - 0x80) < 0x110000 then
        some ((b1 - 0xF0) * 0x40000 + (b2 - 0x80) * 0x1000 +
          (b3 - 0x80) * 0x40 + (b4 - 0x80), rest2)
      else none
    else none
  | _ => none

/-- Strict UTF-8 parse of one scalar value: the scalar and the remaining
bytes, or `none` on an invalid, overlong, surrogate or out-of-range
sequence. -/
def utf8Parse1 : List Nat → Option (Nat × List Nat)
  | [] => none
  | b1 :: rest =>
    if b1 < 0x80 then some (b1, rest)
    else if 0xC0 ≤ b1 && b1 ≤ 0xDF then utf8ParseTwo b1 rest
    else if 0xE0 ≤ b1 && b1 ≤ 0xEF then utf8ParseThree b1 rest
    else if 0xF0 ≤ b1 && b1 ≤ 0xF4 then utf8ParseFour b1 rest
    else none

/-- Fueled strict UTF-8 parse of a whole byte sequence into scalar
values. -/
def utf8ParseFuel : Nat → List Nat → Option (List Nat)
  | _, [] => some []
  | 0, _ :: _ => none
  | fuel + 1, l =>
    match utf8Parse1 l with
    | none => none
    | some (s, rest) => (utf8ParseFuel fuel rest).map (s :: ·)

/-- Strict UTF-8 parse of a byte sequence (one unit of fuel per byte
suffices, as each step consumes at least one byte). -/
def utf8ParseAll (B : List Nat) : Option (List Nat) :=
  utf8ParseFuel B.length B

/-- UTF-16 code units of a list of scalar values (surrogate pairs for
astral scalars). -/
def scalarsToUtf16 (l : List Nat) : JsStr :=
  l.flatMap (fun n =>
    if n < 0x10000 then [n]
    else [0xD800 + (n - 0x10000) / 0x400, 0xDC00 + (n - 0x10000) % 0x400])

/-- Canonical UTF-8 text of a byte sequence: defined exactly when the
bytes are valid UTF-8, in which case it is the JS string whose UTF-8
encoding is those bytes. -/
def encodeUtf8? (B : List Nat) : Option JsStr :=
  (utf8ParseAll B).map scalarsToUtf16

/-- Extension-hint normalization as the design document words it: keep the
hint if it already starts with `.`, otherwise prepend a `.`, deleting every
character outside `[A-Za-z0-9.]` from the hint's characters. -/
def normalizeHintSpec (h : JsStr) : JsStr :=
  if h.head? = some 0x2E then h.filter extAllowed
  else 0x2E :: h.filter extAllowed

/-! ## Dispatch and engine characterization lemmas -/

theorem decodeStep_binary (d : JsStr) :
    decodeStep "binary" d = .ok (bufferFromBinary d) := rfl

theorem decodeStep_ascii (d : JsStr) :
    decodeStep "ascii" d = .ok (bufferFromAscii d) := rfl

theorem decodeStep_utf8 (d : JsStr) :
    decodeStep "utf8" d = .ok (bufferFromUtf8 d) := rfl

theorem decodeStep_utf16le (d : JsStr) :
    decodeStep "utf-16le" d = .ok (bufferFromUtf16le d) := rfl

theorem decodeStep_ucs2 (d : JsStr) :
    decodeStep "ucs2" d = .ok (bufferFromUtf16le d) := rfl

theorem decodeStep_hex (d : JsStr) :
    decodeStep "hex" d =
      if hexFormatOk d then .ok (nodeHexDecode d)
      else .error "Invalid hexadecimal string" := rfl

theorem decodeStep_base64 (d : JsStr) :
    decodeStep "base64" d =
      (if !b64FormatOk (stripWs d) then .error "Invalid base64 format"
       else if (stripWs d).length % 4 ≠ 0 then
         .error "Invalid base64 string length"
       else base64Attempt (stripWs d)) := rfl

theorem base64Attempt_eq (c : JsStr) :
    base64Attempt c = .ok (nodeBase64Decode c) := rfl

theorem processEncodedData_of_error {e : String} {d : JsStr} {m : String}
    (f : String) (hint : Option JsStr) (now : Nat) (w : Option String)
    (h : decodeStep e d = .error m) :
    processEncodedData d e f hint now w = (.failure ⟨f, e, failMsg e m⟩, []) := by
  simp [processEncodedData, h]

theorem processEncodedData_of_empty {e : String} {d : JsStr}
    (f : String) (hint : Option JsStr) (now : Nat) (w : Option String)
    (h : decodeStep e d = .ok []) :
    processEncodedData d e f hint now w =
      (.failure ⟨f, e, failMsg e "Decoded data is empty"⟩, []) := by
  simp [processEncodedData, h]

theorem processEncodedData_of_ok {e : String} {d : JsStr} {b : List Nat}
    (f : String) (hint : Option JsStr) (now : Nat)
    (h : decodeStep e d = .ok b) (hne : b.length ≠ 0) :
    processEncodedData d e f hint now none =
      (.success ⟨f, e, b.length, ⟨now, f, e, determineExt hint e b⟩, d.length⟩,
       [⟨⟨now, f, e, determineExt hint e b⟩, b⟩]) := by
  simp [processEncodedData, h, hne]

theorem processEncodedData_of_writeError {e : String} {d : JsStr} {b : List Nat}
    (f : String) (hint : Option JsStr) (now : Nat) (io : String)
    (h : decodeStep e d = .ok b) (hne : b.length ≠ 0) :
    processEncodedData d e f hint now (some io) =
      (.failure ⟨f, e, failMsg e io⟩, []) := by
  simp [processEncodedData, h, hne]

/-! ## Hex lemmas -/

theorem nodeHexDecode_cons {a b : Nat} (rest : JsStr) (ha : isHexDigit a = true)
    (hb : isHexDigit b = true) :
    nodeHexDecode (a :: b :: rest) =
      (hexVal a * 16 + hexVal b) :: nodeHexDecode rest := by
  simp [nodeHexDecode, ha, hb]

theorem nodeHexDecode_length : ∀ p : JsStr, (∀ u ∈ p, isHexDigit u = true) →
    (nodeHexDecode p).length = p.length / 2
  | [], _ => rfl
  | [_], _ => by simp [nodeHexDecode]
  | a :: b :: rest, h => by
    have ha := h a (by simp)
    have hb := h b (by simp)
    have ih := nodeHexDecode_length rest (fun u hu => h u (by simp [hu]))
    rw [nodeHexDecode_cons rest ha hb]
    simp only [List.length_cons, ih]
    omega

theorem nodeHexDecode_odd : ∀ p : JsStr, p.length % 2 = 1 →
    nodeHexDecode p = nodeHexDecode (p.take (p.length - 1))
  | [], h => by simp at h
  | [_], _ => rfl
  | a :: b :: rest, h => by
    have hlen : rest.length % 2 = 1 := by
      simp only [List.length_cons] at h; omega
    have h2 : (a :: b :: rest).length - 1 = (rest.length - 1) + 1 + 1 := by
      simp only [List.length_cons]; omega
    rw [h2, List.take_succ_cons, List.take_succ_cons]
    by_cases hab : (isHexDigit a && isHexDigit b) = true
    · simp only [nodeHexDecode, hab, if_true]
      rw [← nodeHexDecode_odd rest hlen]
    · simp [nodeHexDecode, hab]

theorem hexDigitChar_spec : ∀ n, n < 16 →
    isHexDigit (hexDigitChar n) = true ∧ hexVal (hexDigitChar n) = n := by
  decide

theorem encodeHex_roundtrip : ∀ B : List Nat, (∀ b ∈ B, b < 256) →
    nodeHexDecode (encodeHex B) = B
  | [], _ => rfl
  | b :: rest, h => by
    have hb := h b (by simp)
    have h1 := hexDigitChar_spec (b / 16) (by omega)
    have h2 := hexDigitChar_spec (b % 16) (by omega)
    have ih := encodeHex_roundtrip rest (fun u hu => h u (by simp [hu]))
    show nodeHexDecode (hexDigitChar (b / 16) :: hexDigitChar (b % 16) ::
      encodeHex rest) = b :: rest
    rw [nodeHexDecode_cons _ h1.1 h2.1, h1.2, h2.2, ih]
    congr 1
    omega

theorem encodeHex_format : ∀ B : List Nat, (∀ b ∈ B, b < 256) → B ≠ [] →
    hexFormatOk (encodeHex B) = true := by
  intro B hB hne
  have hall : (encodeHex B).all isHexDigit = true := by
    simp only [List.all_eq_true, encodeHex, List.mem_flatMap]
    rintro u ⟨b, hb, hu⟩
    have hblt := hB b hb
    simp only [List.mem_cons, List.not_mem_nil, or_false] at hu
    rcases hu with h | h <;> subst h
    · exact (hexDigitChar_spec (b / 16) (by omega)).1
    · exact (hexDigitChar_spec (b % 16) (by omega)).1
  have hne2 : (encodeHex B).isEmpty = false := by
    cases B with
    | nil => exact absurd rfl hne
    | cons b rest => rfl
  simp [hexFormatOk, hall, hne2]

/-! ## UTF-16LE lemmas -/

theorem encodeUtf16le_roundtrip : ∀ B : List Nat, (∀ b ∈ B, b < 256) →
    B.length % 2 = 0 → bufferFromUtf16le (encodeUtf16le B) = B
  | [], _, _ => rfl
  | [_], _, hl => by simp at hl
  | b0 :: b1 :: rest, h, hl => by
    have h0 := h b0 (by simp)
    have h1 := h b1 (by simp)
    have ih := encodeUtf16le_roundtrip rest (fun u hu => h u (by simp [hu]))
      (by simp only [List.length_cons] at hl; omega)
    have e0 : (b0 + 256 * b1) % 256 = b0 := by omega
    have e1 : (b0 + 256 * b1) / 256 % 256 = b1 := by omega
    calc bufferFromUtf16le (encodeUtf16le (b0 :: b1 :: rest))
        = ((b0 + 256 * b1) % 256) :: ((b0 + 256 * b1) / 256 % 256) ::
            bufferFromUtf16le (encodeUtf16le rest) := rfl
      _ = b0 :: b1 :: rest := by rw [e0, e1, ih]

/-! ## Base64 lemmas -/

theorem b64Char_spec : ∀ n, n < 64 →
    b64Val (b64Char n) = n ∧ isB64Char (b64Char n) = true := by
  decide

theorem bytesToSextets_lt : ∀ B : List Nat, (∀ b ∈ B, b < 256) →
    ∀ s ∈ bytesToSextets B, s < 64
  | [], _, s, hs => by simp [bytesToSextets] at hs
  | [a], h, s, hs => by
    have ha := h a (by simp)
    simp only [bytesToSextets, List.mem_cons, List.not_mem_nil, or_false] at hs
    rcases hs with h1 | h1 <;> omega
  | [a, b], h, s, hs => by
    have ha := h a (by simp)
    have hb := h b (by simp)
    simp only [bytesToSextets, List.mem_cons, List.not_mem_nil, or_false] at hs
    rcases hs with h1 | h1 | h1 <;> omega
  | a :: b :: c :: tl, h, s, hs => by
    have ha := h a (by simp)
    have hb := h b (by simp)
    have hc := h c (by simp)
    have ih := bytesToSextets_lt tl (fun u hu => h u (by simp [hu]))
    simp only [bytesToSextets, List.mem_cons] at hs
    rcases hs with h1 | h1 | h1 | h1 | h1
    · omega
    · omega
    · omega
    · omega
    · exact ih s h1

theorem sextets_bytes_roundtrip : ∀ B : List Nat, (∀ b ∈ B, b < 256) →
    sextetsToBytes (bytesToSextets B) = B
  | [], _ => rfl
  | [a], h => by
    have ha := h a (by simp)
    show sextetsToBytes [a / 4, a % 4 * 16] = [a]
    simp only [sextetsToBytes, List.cons.injEq, and_true]
    omega
  | [a, b], h => by
    have ha := h a (by simp)
    have hb := h b (by simp)
    show sextetsToBytes [a / 4, a % 4 * 16 + b / 16, b % 16 * 4] = [a, b]
    simp only [sextetsToBytes, List.cons.injEq, and_true]
    constructor <;> omega
  | a :: b :: c :: tl, h => by
    have ha := h a (by simp)
    have hb := h b (by simp)
    have hc := h c (by simp)
    have ih := sextets_bytes_roundtrip tl (fun u hu => h u (by simp [hu]))
    show sextetsToBytes ((a / 4) :: (a % 4 * 16 + b / 16) ::
      (b % 16 * 4 + c / 64) :: (c % 64) :: bytesToSextets tl) = a :: b :: c :: tl
    rw [sextetsToBytes, ih]
    simp only [List.cons.injEq, and_true]
    refine ⟨by omega, by omega, by omega⟩

theorem takeWhile_append_all {p : Nat → Bool} : ∀ l le : List Nat,
    (∀ x ∈ l, p x = true) → (l ++ le).takeWhile p = l ++ le.takeWhile p
  | [], le, _ => rfl
  | x :: xs, le, h => by
    have hx := h x (by simp)
    have ih := takeWhile_append_all xs le (fun y hy => h y (by simp [hy]))
    simp [List.takeWhile_cons, hx, ih]

theorem takeWhile_b64_pad : ∀ k, (List.replicate k 0x3D).takeWhile isB64Char = [] := by
  intro k
  cases k with
  | zero => rfl
  | succ n => simp [List.replicate_succ, List.takeWhile_cons, isB64Char]

theorem encodeBase64_body_all (B : List Nat) (hB : ∀ b ∈ B, b < 256) :
    ∀ u ∈ (bytesToSextets B).map b64Char, isB64Char u = true := by
  intro u hu
  simp only [List.mem_map] at hu
  obtain ⟨s, hs, rfl⟩ := hu
  exact (b64Char_spec s (bytesToSextets_lt B hB s hs)).2

theorem encodeBase64_takeWhile (B : List Nat) (hB : ∀ b ∈ B, b < 256) :
    (encodeBase64 B).takeWhile isB64Char = (bytesToSextets B).map b64Char := by
  rw [encodeBase64, takeWhile_append_all _ _ (encodeBase64_body_all B hB),
    b64Pad, takeWhile_b64_pad, List.append_nil]

theorem encodeBase64_format : ∀ B : List Nat, (∀ b ∈ B, b < 256) →
    b64FormatOk (encodeBase64 B) = true := by
  intro B hB
  rw [b64FormatOk]
  rw [encodeBase64_takeWhile B hB]
  have hdrop : (encodeBase64 B).drop ((bytesToSextets B).map b64Char).length
      = b64Pad B.length := by
    rw [encodeBase64, List.drop_left]
  rw [hdrop]
  have hlen : (b64Pad B.length).length ≤ 2 := by
    simp only [b64Pad, List.length_replicate]
    omega
  have hall : (b64Pad B.length).all (· == 0x3D) = true := by
    simp [b64Pad, List.all_eq_true]
  simp [hlen, hall]

theorem b64_not_ws (u : Nat) (h : isB64Char u = true) :
    isJsWhitespace u = false := by
  simp only [isB64Char, Bool.or_eq_true, Bool.and_eq_true, decide_eq_true_eq,
    beq_iff_eq] at h
  by_contra hw
  rw [Bool.not_eq_false] at hw
  simp only [isJsWhitespace, Bool.or_eq_true, Bool.and_eq_true,
    decide_eq_true_eq, beq_iff_eq] at hw
  omega

theorem encodeBase64_stripWs (B : List Nat) (hB : ∀ b ∈ B, b < 256) :
    stripWs (encodeBase64 B) = encodeBase64 B := by
  rw [stripWs, List.filter_eq_self]
  intro u hu
  rw [encodeBase64] at hu
  rcases List.mem_append.mp hu with h | h
  · simp [b64_not_ws u (encodeBase64_body_all B hB u h)]
  · simp only [b64Pad, List.mem_replicate] at h
    rw [h.2]
    decide

theorem encodeBase64_length_aux : ∀ B : List Nat,
    ((bytesToSextets B).length + (3 - B.length % 3) % 3) % 4 = 0
  | [] => by simp [bytesToSextets]
  | [a] => by simp [bytesToSextets]
  | [a, b] => by simp [bytesToSextets]
  | a :: b :: c :: tl => by
    have ih := encodeBase64_length_aux tl
    simp only [bytesToSextets, List.length_cons] at ih ⊢
    omega

theorem encodeBase64_length (B : List Nat) : (encodeBase64 B).length % 4 = 0 := by
  have := encodeBase64_length_aux B
  simp only [encodeBase64, List.length_append, List.length_map, b64Pad,
    List.length_replicate]
  omega

theorem encodeBase64_roundtrip (B : List Nat) (hB : ∀ b ∈ B, b < 256) :
    nodeBase64Decode (encodeBase64 B) = B := by
  rw [nodeBase64Decode, encodeBase64_takeWhile B hB, List.map_map]
  have hmap : (bytesToSextets B).map (b64Val ∘ b64Char) = bytesToSextets B := by
    rw [List.map_congr_left, List.map_id]
    intro s hs
    exact (b64Char_spec s (bytesToSextets_lt B hB s hs)).1
  rw [hmap, sextets_bytes_roundtrip B hB]

/-! ## UTF-8 lemmas -/

theorem utf8Bytes_one (n : Nat) (h : n < 0x80) : utf8Bytes n = [n] := by
  rw [utf8Bytes, if_pos h]

theorem utf8Bytes_two (n : Nat) (h1 : 0x80 ≤ n) (h2 : n < 0x800) :
    utf8Bytes n = [0xC0 + n / 0x40, 0x80 + n % 0x40] := by
  rw [utf8Bytes, if_neg (by omega), if_pos h2]

theorem utf8Bytes_three (n : Nat) (h1 : 0x800 ≤ n) (h2 : n < 0x10000) :
    utf8Bytes n = [0xE0 + n / 0x1000, 0x80 + n / 0x40 % 0x40, 0x80 + n % 0x40] := by
  rw [utf8Bytes, if_neg (by omega), if_neg (by omega), if_pos h2]

theorem utf8Bytes_four (n : Nat) (h1 : 0x10000 ≤ n) :
    utf8Bytes n = [0xF0 + n / 0x40000, 0x80 + n / 0x1000 % 0x40,
      0x80 + n / 0x40 % 0x40, 0x80 + n % 0x40] := by
  rw [utf8Bytes, if_neg (by omega), if_neg (by omega), if_neg (by omega)]

theorem isCont_iff (b : Nat) : isCont b = true ↔ 0x80 ≤ b ∧ b ≤ 0xBF := by
  simp [isCont]

theorem utf8ParseTwo_spec (b1 : Nat) (hb1 : 0xC0 ≤ b1 ∧ b1 ≤ 0xDF) :
    ∀ (tl : List Nat) (s : Nat) (rest : List Nat),
    utf8ParseTwo b1 tl = some (s, rest) →
    (0x80 ≤ s ∧ s < 0x800) ∧ utf8Bytes s ++ rest = b1 :: tl
  | [], s, rest, h => by simp [utf8ParseTwo] at h
  | b2 :: tl2, s, rest, h => by
    rw [utf8ParseTwo] at h
    by_cases hc : isCont b2 = true
    · rw [if_pos hc] at h
      rw [isCont_iff] at hc
      by_cases hn : 0x80 ≤ (b1 - 0xC0) * 0x40 + (b2 - 0x80)
      · rw [if_pos hn] at h
        simp only [Option.some.injEq, Prod.mk.injEq] at h
        obtain ⟨rfl, rfl⟩ := h
        refine ⟨⟨hn, by omega⟩, ?_⟩
        rw [utf8Bytes_two _ hn (by omega)]
        have e1 : 0xC0 + ((b1 - 0xC0) * 0x40 + (b2 - 0x80)) / 0x40 = b1 := by
          omega
        have e2 : 0x80 + ((b1 - 0xC0) * 0x40 + (b2 - 0x80)) % 0x40 = b2 := by
          omega
        rw [e1, e2]
        rfl
      · rw [if_neg hn] at h
        exact absurd h (by simp)
    · rw [if_neg hc] at h
      exact absurd h (by simp)

theorem utf8ParseThree_spec (b1 : Nat) (hb1 : 0xE0 ≤ b1 ∧ b1 ≤ 0xEF) :
    ∀ (tl : List Nat) (s : Nat) (rest : List Nat),
    utf8ParseThree b1 tl = some (s, rest) →
    (0x800 ≤ s ∧ s < 0x10000 ∧ ¬(0xD800 ≤ s ∧ s ≤ 0xDFFF)) ∧
      utf8Bytes s ++ rest = b1 :: tl
  | [], s, rest, h => by simp [utf8ParseThree] at h
  | [b2], s, rest, h => by simp [utf8ParseThree] at h
  | b2 :: b3 :: tl2, s, rest, h => by
    rw [utf8ParseThree] at h
    by_cases hc : (isCont b2 && isCont b3) = true
    · rw [if_pos hc] at h
      simp only [Bool.and_eq_true, isCont_iff] at hc
      obtain ⟨hc2, hc3⟩ := hc
      by_cases hn : 0x800 ≤ (b1 - 0xE0) * 0x1000 + (b2 - 0x80) * 0x40 + (b3 - 0x80) ∧
          ¬(0xD800 ≤ (b1 - 0xE0) * 0x1000 + (b2 - 0x80) * 0x40 + (b3 - 0x80) ∧
            (b1 - 0xE0) * 0x1000 + (b2 - 0x80) * 0x40 + (b3 - 0x80) ≤ 0xDFFF)
      · rw [if_pos hn] at h
        simp only [Option.some.injEq, Prod.mk.injEq] at h
        obtain ⟨rfl, rfl⟩ := h
        refine ⟨⟨hn.1, by omega, hn.2⟩, ?_⟩
        rw [utf8Bytes_three _ hn.1 (by omega)]
        have e1 : 0xE0 + ((b1 - 0xE0) * 0x1000 + (b2 - 0x80) * 0x40 + (b3 - 0x80)) / 0x1000 = b1 := by
          omega
        have e2 : 0x80 + ((b1 - 0xE0) * 0x1000 + (b2 - 0x80) * 0x40 + (b3 - 0x80)) / 0x40 % 0x40 = b2 := by
          omega
        have e3 : 0x80 + ((b1 - 0xE0) * 0x1000 + (b2 - 0x80) * 0x40 + (b3 - 0x80)) % 0x40 = b3 := by
          omega
        rw [e1, e2, e3]
        rfl
      · rw [if_neg hn] at h
        exact absurd h (by simp)
    · rw [if_neg hc] at h
      exact absurd h (by simp)

theorem utf8ParseFour_spec (b1 : Nat) (hb1 : 0xF0 ≤ b1 ∧ b1 ≤ 0xF4) :
    ∀ (tl : List Nat) (s : Nat) (rest : List Nat),
    utf8ParseFour b1 tl = some (s, rest) →
    (0x10000 ≤ s ∧ s < 0x110000) ∧ utf8Bytes s ++ rest = b1 :: tl
  | [], s, rest, h => by simp [utf8ParseFour] at h
  | [b2], s, rest, h => by simp [utf8ParseFour] at h
  | [b2, b3], s, rest, h => by simp [utf8ParseFour] at h
  | b2 :: b3 :: b4 :: tl2, s, rest, h => by
    rw [utf8ParseFour] at h
    by_cases hc : (isCont b2 && isCont b3 && isCont b4) = true
    · rw [if_pos hc] at h
      simp only [Bool.and_eq_true, isCont_iff] at hc
      obtain ⟨⟨hc2, hc3⟩, hc4⟩ := hc
      by_cases hn : 0x10000 ≤ (b1 - 0xF0) * 0x40000 + (b2 - 0x80) * 0x1000 +
            (b3 - 0x80) * 0x40 + (b4 - 0x80) ∧
          (b1 - 0xF0) * 0x40000 + (b2 - 0x80) * 0x1000 +
            (b3 - 0x80) * 0x40 + (b4 - 0x80) < 0x110000
      · rw [if_pos hn] at h
        simp only [Option.some.injEq, Prod.mk.injEq] at h
        obtain ⟨rfl, rfl⟩ := h
        refine ⟨⟨hn.1, hn.2⟩, ?_⟩
        rw [utf8Bytes_four _ hn.1]
        have e1 : 0xF0 + ((b1 - 0xF0) * 0x40000 + (b2 - 0x80) * 0x1000 +
            (b3 - 0x80) * 0x40 + (b4 - 0x80)) / 0x40000 = b1 := by
          omega
        have e2 : 0x80 + ((b1 - 0xF0) * 0x40000 + (b2 - 0x80) * 0x1000 +
            (b3 - 0x80) * 0x40 + (b4 - 0x80)) / 0x1000 % 0x40 = b2 := by
          omega
        have e3 : 0x80 + ((b1 - 0xF0) * 0x40000 + (b2 - 0x80) * 0x1000 +
            (b3 - 0x80) * 0x40 + (b4 - 0x80)) / 0x40 % 0x40 = b3 := by
          omega
        have e4 : 0x80 + ((b1 - 0xF0) * 0x40000 + (b2 - 0x80) * 0x1000 +
            (b3 - 0x80) * 0x40 + (b4 - 0x80)) % 0x40 = b4 := by
          omega
        rw [e1, e2, e3, e4]
        rfl
      · rw [if_neg hn] at h
        exact absurd h (by simp)
    · rw [if_neg hc] at h
      exact absurd h (by simp)

theorem utf8Parse1_spec (l : List Nat) (s : Nat) (rest : List Nat)
    (h : utf8Parse1 l = some (s, rest)) :
    (s < 0x110000 ∧ ¬(0xD800 ≤ s ∧ s ≤ 0xDFFF)) ∧ utf8Bytes s ++ rest = l := by
  cases l with
  | nil => simp [utf8Parse1] at h
  | cons b1 tl =>
    rw [utf8Parse1] at h
    by_cases h1 : b1 < 0x80
    · rw [if_pos h1] at h
      simp only [Option.some.injEq, Prod.mk.injEq] at h
      obtain ⟨rfl, rfl⟩ := h
      refine ⟨⟨by omega, by omega⟩, ?_⟩
      rw [utf8Bytes_one _ h1]
      rfl
    · rw [if_neg h1] at h
      by_cases h2 : (0xC0 ≤ b1 && b1 ≤ 0xDF) = true
      · rw [if_pos h2] at h
        simp only [Bool.and_eq_true, decide_eq_true_eq] at h2
        obtain ⟨hb, he⟩ := utf8ParseTwo_spec b1 h2 tl s rest h
        exact ⟨⟨by omega, by omega⟩, he⟩
      · rw [if_neg h2] at h
        by_cases h3 : (0xE0 ≤ b1 && b1 ≤ 0xEF) = true
        · rw [if_pos h3] at h
          simp only [Bool.and_eq_true, decide_eq_true_eq] at h3
          obtain ⟨hb, he⟩ := utf8ParseThree_spec b1 h3 tl s rest h
          exact ⟨⟨by omega, hb.2.2⟩, he⟩
        · rw [if_neg h3] at h
          by_cases h4 : (0xF0 ≤ b1 && b1 ≤ 0xF4) = true
          · rw [if_pos h4] at h
            simp only [Bool.and_eq_true, decide_eq_true_eq] at h4
            obtain ⟨hb, he⟩ := utf8ParseFour_spec b1 h4 tl s rest h
            exact ⟨⟨hb.2, by omega⟩, he⟩
          · rw [if_neg h4] at h
            exact absurd h (by simp)

theorem bufferFromUtf8_cons (u : Nat) (t : JsStr)
    (hu : isHighSurrogate u = false) (hl : isLowSurrogate u = false) :
    bufferFromUtf8 (u :: t) = utf8Bytes u ++ bufferFromUtf8 t := by
  cases t with
  | nil => simp [bufferFromUtf8, hu, hl]
  | cons v tv => simp [bufferFromUtf8, hu, hl]

theorem bufferFromUtf8_scalar_head (s : Nat) (t : JsStr)
    (h1 : s < 0x110000) (h2 : ¬(0xD800 ≤ s ∧ s ≤ 0xDFFF)) :
    bufferFromUtf8 ((if s < 0x10000 then [s]
        else [0xD800 + (s - 0x10000) / 0x400, 0xDC00 + (s - 0x10000) % 0x400]) ++ t)
      = utf8Bytes s ++ bufferFromUtf8 t := by
  by_cases hs : s < 0x10000
  · rw [if_pos hs]
    exact bufferFromUtf8_cons s t (by simp [isHighSurrogate]; omega)
      (by simp [isLowSurrogate]; omega)
  · rw [if_neg hs]
    have hhi : isHighSurrogate (0xD800 + (s - 0x10000) / 0x400) = true := by
      simp [isHighSurrogate]
      omega
    have hlo : isLowSurrogate (0xDC00 + (s - 0x10000) % 0x400) = true := by
      simp [isLowSurrogate]
      omega
    show bufferFromUtf8 (_ :: _ :: t) = _
    rw [bufferFromUtf8, if_pos hhi, if_pos hlo]
    have hcomb : 0x10000 + (0xD800 + (s - 0x10000) / 0x400 - 0xD800) * 0x400 +
        (0xDC00 + (s - 0x10000) % 0x400 - 0xDC00) = s := by
      omega
    rw [hcomb]

theorem utf8ParseFuel_roundtrip : ∀ (fuel : Nat) (l : List Nat) (scal : List Nat),
    utf8ParseFuel fuel l = some scal → bufferFromUtf8 (scalarsToUtf16 scal) = l
  | _, [], scal, h => by
    simp only [utf8ParseFuel, Option.some.injEq] at h
    obtain rfl := h
    rfl
  | 0, _ :: _, scal, h => by simp [utf8ParseFuel] at h
  | fuel + 1, b :: tl, scal, h => by
    have hstep : utf8ParseFuel (fuel + 1) (b :: tl) =
        match utf8Parse1 (b :: tl) with
        | none => none
        | some (s, rest) => (utf8ParseFuel fuel rest).map (s :: ·) := rfl
    rw [hstep] at h
    cases hp : utf8Parse1 (b :: tl) with
    | none => rw [hp] at h; exact absurd h (by simp)
    | some sr =>
      obtain ⟨s, rest⟩ := sr
      rw [hp] at h
      have h2 : (utf8ParseFuel fuel rest).map (fun x => s :: x) = some scal := h
      obtain ⟨scal2, hscal2, hcons⟩ := Option.map_eq_some'.mp h2
      have ih := utf8ParseFuel_roundtrip fuel rest scal2 hscal2
      obtain ⟨⟨hlt, hsur⟩, heq⟩ := utf8Parse1_spec (b :: tl) s rest hp
      subst hcons
      have hcons2 : scalarsToUtf16 (s :: scal2) =
          (if s < 0x10000 then [s]
           else [0xD800 + (s - 0x10000) / 0x400, 0xDC00 + (s - 0x10000) % 0x400]) ++
            scalarsToUtf16 scal2 := rfl
      rw [hcons2, bufferFromUtf8_scalar_head s _ hlt hsur, ih, heq]

/-! ## Extension logic lemmas -/

theorem normalizeHint_eq_spec (h : JsStr) : normalizeHint h = normalizeHintSpec h := by
  rw [normalizeHint, normalizeHintSpec]
  by_cases hd : h.head? = some 0x2E
  · rw [if_pos hd, if_pos hd]
  · rw [if_neg hd, if_neg hd, List.filter_cons]
    simp [extAllowed]

theorem determineExt_of_hint (hjs : JsStr) (hne : hjs ≠ []) (e : String)
    (b : List Nat) : determineExt (some hjs) e b = normalizeHintSpec hjs := by
  have ht : hintTruthy (some hjs) = true := by
    simp [hintTruthy, hne]
  rw [determineExt]
  simp [ht, normalizeHint_eq_spec]

theorem determineExt_b64_jpg (b : List Nat) (h : b.take 3 = [0xFF, 0xD8, 0xFF]) :
    determineExt none "base64" b = jsOfString ".jpg" := by
  have hb : b = 0xFF :: 0xD8 :: 0xFF :: b.drop 3 := by
    conv_lhs => rw [← List.take_append_drop 3 b]
    rw [h]
    rfl
  rw [hb]
  rfl

theorem determineExt_b64_png (b : List Nat)
    (h : b.take 4 = [0x89, 0x50, 0x4E, 0x47]) :
    determineExt none "base64" b = jsOfString ".png" := by
  have hb : b = 0x89 :: 0x50 :: 0x4E :: 0x47 :: b.drop 4 := by
    conv_lhs => rw [← List.take_append_drop 4 b]
    rw [h]
    rfl
  rw [hb]
  rfl

theorem determineExt_b64_gif (b : List Nat) (h : b.take 3 = [0x47, 0x49, 0x46]) :
    determineExt none "base64" b = jsOfString ".gif" := by
  have hb : b = 0x47 :: 0x49 :: 0x46 :: b.drop 3 := by
    conv_lhs => rw [← List.take_append_drop 3 b]
    rw [h]
    rfl
  rw [hb]
  rfl

theorem determineExt_b64_bmp (b : List Nat) (h : b.take 2 = [0x42, 0x4D]) :
    determineExt none "base64" b = jsOfString ".bmp" := by
  have hb : b = 0x42 :: 0x4D :: b.drop 2 := by
    conv_lhs => rw [← List.take_append_drop 2 b]
    rw [h]
    rfl
  rw [hb]
  rfl

theorem determineExt_none_b64 (b : List Nat) :
    determineExt none "base64" b =
      (if (b.getD 0 256 == 0xFF && b.getD 1 256 == 0xD8 &&
           b.getD 2 256 == 0xFF) = true then jsOfString ".jpg"
       else if (b.getD 0 256 == 0x89 && b.getD 1 256 == 0x50 &&
           b.getD 2 256 == 0x4E && b.getD 3 256 == 0x47) = true then
         jsOfString ".png"
       else if (b.getD 0 256 == 0x47 && b.getD 1 256 == 0x49 &&
           b.getD 2 256 == 0x46) = true then jsOfString ".gif"
       else if (b.getD 0 256 == 0x42 && b.getD 1 256 == 0x4D) = true then
         jsOfString ".bmp"
       else jsOfString ".bin") := rfl

theorem take2_of_getD (b : List Nat) (v0 v1 : Nat) (hv0 : v0 < 256)
    (hv1 : v1 < 256)
    (h : (b.getD 0 256 == v0 && b.getD 1 256 == v1) = true) :
    b.take 2 = [v0, v1] := by
  simp only [Bool.and_eq_true, beq_iff_eq] at h
  obtain ⟨h0, h1⟩ := h
  rcases b with _ | ⟨x, _ | ⟨y, t⟩⟩
  · have e : (256 : Nat) = v0 := h0
    omega
  · have e : (256 : Nat) = v1 := h1
    omega
  · have e0 : x = v0 := h0
    have e1 : y = v1 := h1
    subst e0
    subst e1
    rfl

theorem take3_of_getD (b : List Nat) (v0 v1 v2 : Nat) (hv0 : v0 < 256)
    (hv1 : v1 < 256) (hv2 : v2 < 256)
    (h : (b.getD 0 256 == v0 && b.getD 1 256 == v1 &&
      b.getD 2 256 == v2) = true) :
    b.take 3 = [v0, v1, v2] := by
  simp only [Bool.and_eq_true, beq_iff_eq] at h
  obtain ⟨⟨h0, h1⟩, h2⟩ := h
  rcases b with _ | ⟨x, _ | ⟨y, _ | ⟨z, t⟩⟩⟩
  · have e : (256 : Nat) = v0 := h0
    omega
  · have e : (256 : Nat) = v1 := h1
    omega
  · have e : (256 : Nat) = v2 := h2
    omega
  · have e0 : x = v0 := h0
    have e1 : y = v1 := h1
    have e2 : z = v2 := h2
    subst e0
    subst e1
    subst e2
    rfl

theorem take4_of_getD (b : List Nat) (v0 v1 v2 v3 : Nat) (hv0 : v0 < 256)
    (hv1 : v1 < 256) (hv2 : v2 < 256) (hv3 : v3 < 256)
    (h : (b.getD 0 256 == v0 && b.getD 1 256 == v1 &&
      b.getD 2 256 == v2 && b.getD 3 256 == v3) = true) :
    b.take 4 = [v0, v1, v2, v3] := by
  simp only [Bool.and_eq_true, beq_iff_eq] at h
  obtain ⟨⟨⟨h0, h1⟩, h2⟩, h3⟩ := h
  rcases b with _ | ⟨x, _ | ⟨y, _ | ⟨z, _ | ⟨v, t⟩⟩⟩⟩
  · have e : (256 : Nat) = v0 := h0
    omega
  · have e : (256 : Nat) = v1 := h1
    omega
  · have e : (256 : Nat) = v2 := h2
    omega
  · have e : (256 : Nat) = v3 := h3
    omega
  · have e0 : x = v0 := h0
    have e1 : y = v1 := h1
    have e2 : z = v2 := h2
    have e3 : v = v3 := h3
    subst e0
    subst e1
    subst e2
    subst e3
    rfl

theorem determineExt_b64_default (b : List Nat)
    (h1 : b.take 3 ≠ [0xFF, 0xD8, 0xFF]) (h2 : b.take 4 ≠ [0x89, 0x50, 0x4E, 0x47])
    (h3 : b.take 3 ≠ [0x47, 0x49, 0x46]) (h4 : b.take 2 ≠ [0x42, 0x4D]) :
    determineExt none "base64" b = jsOfString ".bin" := by
  rw [determineExt_none_b64]
  have c1 : ¬((b.getD 0 256 == 0xFF && b.getD 1 256 == 0xD8 &&
      b.getD 2 256 == 0xFF) = true) := fun hc =>
    h1 (take3_of_getD b _ _ _ (by omega) (by omega) (by omega) hc)
  have c2 : ¬((b.getD 0 256 == 0x89 && b.getD 1 256 == 0x50 &&
      b.getD 2 256 == 0x4E && b.getD 3 256 == 0x47) = true) := fun hc =>
    h2 (take4_of_getD b _ _ _ _ (by omega) (by omega) (by omega) (by omega) hc)
  have c3 : ¬((b.getD 0 256 == 0x47 && b.getD 1 256 == 0x49 &&
      b.getD 2 256 == 0x46) = true) := fun hc =>
    h3 (take3_of_getD b _ _ _ (by omega) (by omega) (by omega) hc)
  have c4 : ¬((b.getD 0 256 == 0x42 && b.getD 1 256 == 0x4D) = true) := fun hc =>
    h4 (take2_of_getD b _ _ (by omega) (by omega) hc)
  rw [if_neg c1, if_neg c2, if_neg c3, if_neg c4]

/-! ## Claim theorems -/

/-- C1 counterexample: the claim says an empty payload yields the
empty-payload failure for every encoding in the enumeration, but under Hex
the empty string already fails the `[0-9a-fA-F]+` validation, so the
outcome is the invalid-hex failure, whose message differs from the
empty-payload one. -/
theorem C1_empty_hex_counterexample :
    processEncodedData (jsOfString "") "hex" "file1" none 0 none =
      (.failure ⟨"file1", "hex", failMsg "hex" "Invalid hexadecimal string"⟩, []) ∧
    failMsg "hex" "Invalid hexadecimal string" ≠
      failMsg "hex" "Decoded data is empty" :=
  ⟨rfl, by decide⟩

/-- C1 (amended): for every encoding in the enumeration except Hex, the
empty payload decodes to zero bytes and yields the empty-payload failure
with no file written; under Hex the empty payload fails validation and
yields the invalid-hex failure, likewise with no file written. -/
theorem C1_empty_payload (f : String) (hint : Option JsStr) (now : Nat)
    (w : Option String) :
    (∀ e ∈ (["binary", "ascii", "utf8", "utf-8", "utf-16le", "ucs2",
        "base64"] : List String),
      processEncodedData (jsOfString "") e f hint now w =
        (.failure ⟨f, e, failMsg e "Decoded data is empty"⟩, [])) ∧
    processEncodedData (jsOfString "") "hex" f hint now w =
      (.failure ⟨f, "hex", failMsg "hex" "Invalid hexadecimal string"⟩, []) := by
  constructor
  · intro e he
    simp only [List.mem_cons, List.not_mem_nil, or_false] at he
    rcases he with rfl | rfl | rfl | rfl | rfl | rfl | rfl <;> rfl
  · rfl

/-- C1 witness: the amended statement applied to the Base64 encoding. -/
theorem C1_empty_payload_witness :
    processEncodedData (jsOfString "") "base64" "file1" none 0 none =
      (.failure ⟨"file1", "base64", failMsg "base64" "Decoded data is empty"⟩, []) :=
  (C1_empty_payload "file1" none 0 none).1 "base64" (by simp)

/-- C2: the base64 branch strips whitespace, rejects a cleaned string not
matching the standard alphabet with the invalid-format error, rejects a
cleaned length not divisible by four with the invalid-length error, and
otherwise decodes (Node's base64 decoder is total, so the structurally
present URL-safe retry of the inner catch never fires); concretely,
`SGVsbG8=` decodes to the five bytes of `Hello` and `SGVsbG8` fails with
the invalid-length error. -/
theorem C2_base64_pipeline (data : JsStr) (f : String) (now : Nat)
    (w : Option String) :
    (b64FormatOk (stripWs data) = false →
      decodeStep "base64" data = .error "Invalid base64 format") ∧
    (b64FormatOk (stripWs data) = true → (stripWs data).length % 4 ≠ 0 →
      decodeStep "base64" data = .error "Invalid base64 string length") ∧
    (b64FormatOk (stripWs data) = true → (stripWs data).length % 4 = 0 →
      decodeStep "base64" data = .ok (nodeBase64Decode (stripWs data))) ∧
    processEncodedData (jsOfString "SGVsbG8=") "base64" f none now none =
      (.success ⟨f, "base64", 5, ⟨now, f, "base64", jsOfString ".bin"⟩, 8⟩,
       [⟨⟨now, f, "base64", jsOfString ".bin"⟩, [72, 101, 108, 108, 111]⟩]) ∧
    processEncodedData (jsOfString "SGVsbG8") "base64" f none now w =
      (.failure ⟨f, "base64", failMsg "base64" "Invalid base64 string length"⟩,
       []) := by
  refine ⟨?_, ?_, ?_, rfl, rfl⟩
  · intro hf
    simp [decodeStep_base64, hf]
  · intro hf hl
    simp [decodeStep_base64, hf, hl]
  · intro hf hl
    simp [decodeStep_base64, hf, hl, base64Attempt_eq]

/-- C2 witness: the three validation clauses applied to concrete inputs. -/
theorem C2_base64_pipeline_witness :
    decodeStep "base64" (jsOfString "!!") = .error "Invalid base64 format" ∧
    decodeStep "base64" (jsOfString "SGVsbG8") =
      .error "Invalid base64 string length" ∧
    decodeStep "base64" (jsOfString "SGVsbG8=") =
      .ok (nodeBase64Decode (stripWs (jsOfString "SGVsbG8="))) :=
  ⟨(C2_base64_pipeline (jsOfString "!!") "f" 0 none).1 (by decide),
   (C2_base64_pipeline (jsOfString "SGVsbG8") "f" 0 none).2.1 (by decide)
     (by decide),
   (C2_base64_pipeline (jsOfString "SGVsbG8=") "f" 0 none).2.2.1 (by decide)
     (by decide)⟩

/-- C3: the hex branch rejects any payload not matching `[0-9a-fA-F]+` with
the invalid-hex error and otherwise decodes digit pairs to bytes;
concretely, `zz` fails with the invalid-hex failure and `48656c6c6f`
succeeds with the five bytes of `Hello`. -/
theorem C3_hex_validation_decode (data : JsStr) (f : String) (now : Nat)
    (w : Option String) :
    (hexFormatOk data = false →
      decodeStep "hex" data = .error "Invalid hexadecimal string") ∧
    (hexFormatOk data = true →
      decodeStep "hex" data = .ok (nodeHexDecode data)) ∧
    processEncodedData (jsOfString "zz") "hex" f none now w =
      (.failure ⟨f, "hex", failMsg "hex" "Invalid hexadecimal string"⟩, []) ∧
    processEncodedData (jsOfString "48656c6c6f") "hex" f none now none =
      (.success ⟨f, "hex", 5, ⟨now, f, "hex", jsOfString ".bin"⟩, 10⟩,
       [⟨⟨now, f, "hex", jsOfString ".bin"⟩, [72, 101, 108, 108, 111]⟩]) := by
  refine ⟨?_, ?_, rfl, rfl⟩
  · intro hf
    simp [decodeStep_hex, hf]
  · intro hf
    simp [decodeStep_hex, hf]

/-- C3 witness: both validation clauses applied to concrete inputs. -/
theorem C3_hex_validation_decode_witness :
    decodeStep "hex" (jsOfString "zz") = .error "Invalid hexadecimal string" ∧
    decodeStep "hex" (jsOfString "48656c6c6f") =
      .ok (nodeHexDecode (jsOfString "48656c6c6f")) :=
  ⟨(C3_hex_validation_decode (jsOfString "zz") "f" 0 none).1 (by decide),
   (C3_hex_validation_decode (jsOfString "48656c6c6f") "f" 0 none).2.1
     (by decide)⟩

/-- C4: any encoding name outside the eight accepted by the switch (the
enumeration, with both spellings of UTF-8) falls through to the default
case and yields the unsupported-encoding failure with no file written; the
right-hand side does not mention the payload, so the rejection is uniform
in it — no byte of the payload is processed. -/
theorem C4_unsupported_encoding (e : String)
    (he : e ∉ (["binary", "ascii", "utf8", "utf-8", "utf-16le", "ucs2",
      "hex", "base64"] : List String))
    (data : JsStr) (f : String) (hint : Option JsStr) (now : Nat)
    (w : Option String) :
    processEncodedData data e f hint now w =
      (.failure ⟨f, e, failMsg e ("Unsupported encoding: " ++ e)⟩, []) := by
  simp only [List.mem_cons, List.not_mem_nil, or_false, not_or] at he
  obtain ⟨h1, h2, h3, h4, h5, h6, h7, h8⟩ := he
  have hd : decodeStep e data = .error ("Unsupported encoding: " ++ e) := by
    rw [decodeStep, if_neg h1, if_neg h2, if_neg (by tauto), if_neg h5,
      if_neg h6, if_neg h7, if_neg h8]
  exact processEncodedData_of_error f hint now w hd

/-- C4 witness: the unknown encoding name `rot13`. -/
theorem C4_unsupported_encoding_witness :
    processEncodedData (jsOfString "abc") "rot13" "file1" none 0 none =
      (.failure ⟨"file1", "rot13",
        failMsg "rot13" ("Unsupported encoding: " ++ "rot13")⟩, []) :=
  C4_unsupported_encoding "rot13" (by simp) (jsOfString "abc") "file1" none 0
    none

/-- C5: a success outcome is accompanied by exactly one stored file, at the
success record's path, whose content is the decoded payload and whose
length is the reported size; every failure outcome writes no file. -/
theorem C5_success_failure_invariant (data : JsStr) (e f : String)
    (hint : Option JsStr) (now : Nat) (w : Option String) :
    (∀ s, (processEncodedData data e f hint now w).1 = .success s →
      ∃ b, decodeStep e data = .ok b ∧
        (processEncodedData data e f hint now w).2 = [⟨s.path, b⟩] ∧
        b.length = s.size) ∧
    (∀ fr, (processEncodedData data e f hint now w).1 = .failure fr →
      (processEncodedData data e f hint now w).2 = []) := by
  cases hd : decodeStep e data with
  | error m =>
    rw [processEncodedData_of_error f hint now w hd]
    exact ⟨fun s hs => absurd hs (by simp), fun fr _ => rfl⟩
  | ok b =>
    by_cases hb : b.length = 0
    · obtain rfl := List.length_eq_zero.mp hb
      rw [processEncodedData_of_empty f hint now w hd]
      exact ⟨fun s hs => absurd hs (by simp), fun fr _ => rfl⟩
    · cases w with
      | some io =>
        rw [processEncodedData_of_writeError f hint now io hd hb]
        exact ⟨fun s hs => absurd hs (by simp), fun fr _ => rfl⟩
      | none =>
        rw [processEncodedData_of_ok f hint now hd hb]
        constructor
        · intro s hs
          have hs2 : Outcome.success ⟨f, e, b.length,
              ⟨now, f, e, determineExt hint e b⟩, data.length⟩ = .success s := hs
          injection hs2 with hrec
          refine ⟨b, rfl, ?_, ?_⟩
          · rw [← hrec]
          · rw [← hrec]
        · intro fr hfr
          exact absurd hfr (by simp)

/-- C5 witness: the invariant applied to the hex success of `48656c6c6f`. -/
theorem C5_success_failure_invariant_witness :
    ∃ b, decodeStep "hex" (jsOfString "48656c6c6f") = .ok b ∧
      (processEncodedData (jsOfString "48656c6c6f") "hex" "file1" none 0
        none).2 =
        [⟨(⟨0, "file1", "hex", jsOfString ".bin"⟩ : FileName), b⟩] ∧
      b.length = 5 :=
  (C5_success_failure_invariant (jsOfString "48656c6c6f") "hex" "file1" none 0
      none).1
    ⟨"file1", "hex", 5, ⟨0, "file1", "hex", jsOfString ".bin"⟩, 10⟩ rfl

/-- C6: decoding the canonical textual encoding of a byte sequence returns
exactly that sequence, for each supported encoding — Binary and ASCII over
their valid byte ranges (0–255 and 0–127), UTF-8 over all byte sequences
that are valid UTF-8, UTF-16LE and UCS-2 over even-length sequences, hex
over nonempty sequences, and base64 over all byte sequences. -/
theorem C6_round_trip :
    (∀ B : List Nat, (∀ b ∈ B, b < 256) →
      decodeStep "binary" (encodeBinary B) = .ok B) ∧
    (∀ B : List Nat, (∀ b ∈ B, b < 128) →
      decodeStep "ascii" (encodeAscii B) = .ok B) ∧
    (∀ B sdata, encodeUtf8? B = some sdata →
      decodeStep "utf8" sdata = .ok B) ∧
    (∀ B : List Nat, (∀ b ∈ B, b < 256) → B.length % 2 = 0 →
      decodeStep "utf-16le" (encodeUtf16le B) = .ok B) ∧
    (∀ B : List Nat, (∀ b ∈ B, b < 256) → B.length % 2 = 0 →
      decodeStep "ucs2" (encodeUtf16le B) = .ok B) ∧
    (∀ B : List Nat, (∀ b ∈ B, b < 256) → B ≠ [] →
      decodeStep "hex" (encodeHex B) = .ok B) ∧
    (∀ B : List Nat, (∀ b ∈ B, b < 256) →
      decodeStep "base64" (encodeBase64 B) = .ok B) := by
  refine ⟨?_, ?_, ?_, ?_, ?_, ?_, ?_⟩
  · intro B h
    rw [decodeStep_binary]
    congr 1
    rw [encodeBinary, bufferFromBinary]
    have hmap : B.map (· % 256) = B.map id :=
      List.map_congr_left (fun b hb => Nat.mod_eq_of_lt (h b hb))
    rw [hmap, List.map_id]
  · intro B h
    rw [decodeStep_ascii]
    congr 1
    rw [encodeAscii, bufferFromAscii]
    have hmap : B.map (· % 256) = B.map id :=
      List.map_congr_left (fun b hb => Nat.mod_eq_of_lt (by
        have := h b hb
        omega))
    rw [hmap, List.map_id]
  · intro B sdata henc
    rw [decodeStep_utf8]
    rw [encodeUtf8?] at henc
    obtain ⟨scal, hscal, rfl⟩ := Option.map_eq_some'.mp henc
    congr 1
    exact utf8ParseFuel_roundtrip B.length B scal hscal
  · intro B h hl
    rw [decodeStep_utf16le]
    congr 1
    exact encodeUtf16le_roundtrip B h hl
  · intro B h hl
    rw [decodeStep_ucs2]
    congr 1
    exact encodeUtf16le_roundtrip B h hl
  · intro B h hne
    rw [decodeStep_hex, if_pos (encodeHex_format B h hne),
      encodeHex_roundtrip B h]
  · intro B h
    rw [decodeStep_base64, encodeBase64_stripWs B h,
      if_neg (by simp [encodeBase64_format B h]),
      if_neg (by simp [encodeBase64_length B]),
      base64Attempt_eq, encodeBase64_roundtrip B h]

/-- C6 witness: the round trip applied to concrete byte sequences under
each encoding. -/
theorem C6_round_trip_witness :
    decodeStep "binary" (encodeBinary [0, 255]) = .ok [0, 255] ∧
    decodeStep "ascii" (encodeAscii [72, 127]) = .ok [72, 127] ∧
    decodeStep "utf8" (scalarsToUtf16 [72, 233]) = .ok [72, 195, 169] ∧
    decodeStep "utf-16le" (encodeUtf16le [1, 2, 3, 255]) = .ok [1, 2, 3, 255] ∧
    decodeStep "ucs2" (encodeUtf16le [1, 2, 3, 255]) = .ok [1, 2, 3, 255] ∧
    decodeStep "hex" (encodeHex [202, 254]) = .ok [202, 254] ∧
    decodeStep "base64" (encodeBase64 [255, 216, 255]) = .ok [255, 216, 255] :=
  ⟨C6_round_trip.1 [0, 255] (by decide),
   C6_round_trip.2.1 [72, 127] (by decide),
   C6_round_trip.2.2.1 [72, 195, 169] (scalarsToUtf16 [72, 233]) (by rfl),
   C6_round_trip.2.2.2.1 [1, 2, 3, 255] (by decide) (by decide),
   C6_round_trip.2.2.2.2.1 [1, 2, 3, 255] (by decide) (by decide),
   C6_round_trip.2.2.2.2.2.1 [202, 254] (by decide) (by decide),
   C6_round_trip.2.2.2.2.2.2 [255, 216, 255] (by decide)⟩

/-- C7: the engine is a total function whose every outcome carries the
original field and encoding identifiers; every failure outcome's message
is the outer catch's wrapping of some thrown message, and a filesystem
write error is converted into exactly that failure. -/
theorem C7_no_unhandled_faults (data : JsStr) (e f : String)
    (hint : Option JsStr) (now : Nat) (w : Option String) :
    (∀ s, (processEncodedData data e f hint now w).1 = .success s →
      s.fieldname = f ∧ s.encoding = e) ∧
    (∀ fr, (processEncodedData data e f hint now w).1 = .failure fr →
      fr.fieldname = f ∧ fr.encoding = e ∧ ∃ m, fr.error = failMsg e m) ∧
    (∀ io b, w = some io → decodeStep e data = .ok b → b ≠ [] →
      (processEncodedData data e f hint now w).1 =
        .failure ⟨f, e, failMsg e io⟩) := by
  cases hd : decodeStep e data with
  | error m =>
    rw [processEncodedData_of_error f hint now w hd]
    refine ⟨fun s hs => absurd hs (by simp), fun fr hfr => ?_,
      fun io b hw hdok hb => ?_⟩
    · injection (show Outcome.failure ⟨f, e, failMsg e m⟩ = .failure fr
        from hfr) with h3
      rw [← h3]
      exact ⟨rfl, rfl, m, rfl⟩
    · exact absurd hdok (by simp)
  | ok b0 =>
    by_cases hb0 : b0.length = 0
    · obtain rfl := List.length_eq_zero.mp hb0
      rw [processEncodedData_of_empty f hint now w hd]
      refine ⟨fun s hs => absurd hs (by simp), fun fr hfr => ?_,
        fun io b hw hdok hb => ?_⟩
      · injection (show Outcome.failure
            ⟨f, e, failMsg e "Decoded data is empty"⟩ = .failure fr
          from hfr) with h3
        rw [← h3]
        exact ⟨rfl, rfl, _, rfl⟩
      · injection hdok with h4
        exact absurd h4.symm hb
    · cases w with
      | some io0 =>
        rw [processEncodedData_of_writeError f hint now io0 hd hb0]
        refine ⟨fun s hs => absurd hs (by simp), fun fr hfr => ?_,
          fun io b hw hdok hb => ?_⟩
        · injection (show Outcome.failure ⟨f, e, failMsg e io0⟩ = .failure fr
            from hfr) with h3
          rw [← h3]
          exact ⟨rfl, rfl, io0, rfl⟩
        · injection hw with h5
          subst h5
          rfl
      | none =>
        rw [processEncodedData_of_ok f hint now hd hb0]
        refine ⟨fun s hs => ?_, fun fr hfr => absurd hfr (by simp),
          fun io b hw hdok hb => absurd hw (by simp)⟩
        injection (show Outcome.success ⟨f, e, b0.length,
            ⟨now, f, e, determineExt hint e b0⟩, data.length⟩ = .success s
          from hs) with h3
        rw [← h3]
        exact ⟨rfl, rfl⟩

/-- C7 witness: a write error on a valid hex payload is converted into the
wrapped failure. -/
theorem C7_no_unhandled_faults_witness :
    (processEncodedData (jsOfString "48656c6c6f") "hex" "file1" none 0
        (some "disk full")).1 =
      .failure ⟨"file1", "hex", failMsg "hex" "disk full"⟩ :=
  (C7_no_unhandled_faults (jsOfString "48656c6c6f") "hex" "file1" none 0
      (some "disk full")).2.2 "disk full" [72, 101, 108, 108, 111] rfl rfl
    (by decide)

/-- C8: for a base64 payload with no extension hint that decodes to a
nonempty byte sequence, the stored filename's extension is the sniffed
one — `FF D8 FF` gives `.jpg`, `89 50 4E 47` gives `.png`, `47 49 46`
gives `.gif`, `42 4D` gives `.bmp` (the checks are in that order and the
four signatures differ in their first byte, so the first match wins), and
a buffer matching none of them falls through to `.bin`. -/
theorem C8_base64_sniffing (data : JsStr) (f : String) (now : Nat)
    (b : List Nat) (hd : decodeStep "base64" data = .ok b)
    (hb : b.length ≠ 0) :
    processEncodedData data "base64" f none now none =
      (.success ⟨f, "base64", b.length,
        ⟨now, f, "base64", determineExt none "base64" b⟩, data.length⟩,
       [⟨⟨now, f, "base64", determineExt none "base64" b⟩, b⟩]) ∧
    (b.take 3 = [0xFF, 0xD8, 0xFF] →
      determineExt none "base64" b = jsOfString ".jpg") ∧
    (b.take 4 = [0x89, 0x50, 0x4E, 0x47] →
      determineExt none "base64" b = jsOfString ".png") ∧
    (b.take 3 = [0x47, 0x49, 0x46] →
      determineExt none "base64" b = jsOfString ".gif") ∧
    (b.take 2 = [0x42, 0x4D] →
      determineExt none "base64" b = jsOfString ".bmp") ∧
    (b.take 3 ≠ [0xFF, 0xD8, 0xFF] → b.take 4 ≠ [0x89, 0x50, 0x4E, 0x47] →
      b.take 3 ≠ [0x47, 0x49, 0x46] → b.take 2 ≠ [0x42, 0x4D] →
      determineExt none "base64" b = jsOfString ".bin") :=
  ⟨processEncodedData_of_ok f none now hd hb,
   fun h => determineExt_b64_jpg b h,
   fun h => determineExt_b64_png b h,
   fun h => determineExt_b64_gif b h,
   fun h => determineExt_b64_bmp b h,
   fun h1 h2 h3 h4 => determineExt_b64_default b h1 h2 h3 h4⟩

/-- C8 witness: the base64 payload `/9j/` decodes to `FF D8 FF` and is
stored with the sniffed `.jpg` extension. -/
theorem C8_base64_sniffing_witness :
    processEncodedData (jsOfString "/9j/") "base64" "file1" none 0 none =
      (.success ⟨"file1", "base64", 3,
        ⟨0, "file1", "base64", determineExt none "base64" [255, 216, 255]⟩, 4⟩,
       [⟨⟨0, "file1", "base64", determineExt none "base64" [255, 216, 255]⟩,
         [255, 216, 255]⟩]) ∧
    determineExt none "base64" [255, 216, 255] = jsOfString ".jpg" :=
  ⟨(C8_base64_sniffing (jsOfString "/9j/") "file1" 0 [255, 216, 255] rfl
      (by decide)).1,
   (C8_base64_sniffing (jsOfString "/9j/") "file1" 0 [255, 216, 255] rfl
      (by decide)).2.1 rfl⟩

/-- C9 counterexample: the hint `..png` already starts with `.`, so the
code keeps it unchanged and the stored extension `..png` begins with two
dots — the normalization does not produce a single leading `.`. -/
theorem C9_double_dot_counterexample :
    (processEncodedData (jsOfString "hi") "utf8" "file1"
        (some (jsOfString "..png")) 0 none).1 =
      .success ⟨"file1", "utf8", 2,
        ⟨0, "file1", "utf8", jsOfString "..png"⟩, 2⟩ ∧
    (jsOfString "..png").take 2 = [0x2E, 0x2E] :=
  ⟨rfl, rfl⟩

/-- C9 (amended): when a non-empty extension hint is present, the stored
extension is the hint with a `.` prepended only when it does not already
start with one (which can leave several leading dots), with every
character outside `[A-Za-z0-9.]` removed; the hint takes precedence over
signature sniffing and the `.bin` default under every encoding. -/
theorem C9_hint_normalized (data : JsStr) (e f : String) (hjs : JsStr)
    (now : Nat) (w : Option String) (s : SuccessRecord) (hne : hjs ≠ [])
    (hs : (processEncodedData data e f (some hjs) now w).1 = .success s) :
    s.path.ext = normalizeHintSpec hjs := by
  cases hd : decodeStep e data with
  | error m =>
    rw [processEncodedData_of_error f _ now w hd] at hs
    exact absurd hs (by simp)
  | ok b =>
    by_cases hb : b.length = 0
    · obtain rfl := List.length_eq_zero.mp hb
      rw [processEncodedData_of_empty f _ now w hd] at hs
      exact absurd hs (by simp)
    · cases w with
      | some io =>
        rw [processEncodedData_of_writeError f _ now io hd hb] at hs
        exact absurd hs (by simp)
      | none =>
        rw [processEncodedData_of_ok f _ now hd hb] at hs
        injection (show Outcome.success ⟨f, e, b.length,
            ⟨now, f, e, determineExt (some hjs) e b⟩, data.length⟩ =
            .success s from hs) with h3
        rw [← h3]
        exact determineExt_of_hint hjs hne e b

/-- C9 witness: the amended statement applied to the hint `png@` on a
UTF-8 payload. -/
theorem C9_hint_normalized_witness :
    (⟨0, "file1", "utf8", jsOfString ".png"⟩ : FileName).ext =
      normalizeHintSpec (jsOfString "png@") :=
  C9_hint_normalized (jsOfString "hi") "utf8" "file1" (jsOfString "png@") 0
    none ⟨"file1", "utf8", 2, ⟨0, "file1", "utf8", jsOfString ".png"⟩, 2⟩
    (by decide) rfl

/-- C10: an odd-length all-hex payload passes the hex validation, decodes
to `length / 2` bytes, and the decode equals the decode of the payload
without its final digit (the lone trailing digit is ignored); a single hex
digit therefore decodes to zero bytes and yields the empty-payload
failure, not the invalid-hex one. -/
theorem C10_odd_hex (p : JsStr) (d : Nat) (f : String) (now : Nat)
    (w : Option String) :
    ((∀ u ∈ p, isHexDigit u = true) → p.length % 2 = 1 →
      hexFormatOk p = true ∧
      decodeStep "hex" p = .ok (nodeHexDecode p) ∧
      (nodeHexDecode p).length = p.length / 2 ∧
      nodeHexDecode p = nodeHexDecode (p.take (p.length - 1))) ∧
    (isHexDigit d = true →
      processEncodedData [d] "hex" f none now w =
        (.failure ⟨f, "hex", failMsg "hex" "Decoded data is empty"⟩, [])) := by
  constructor
  · intro hall hodd
    have hne : p ≠ [] := by
      intro h
      subst h
      simp at hodd
    have h1 : p.all isHexDigit = true := List.all_eq_true.mpr hall
    have h2 : p.isEmpty = false := by
      cases p with
      | nil => exact absurd rfl hne
      | cons a t => rfl
    have hfmt : hexFormatOk p = true := by
      simp [hexFormatOk, h1, h2]
    refine ⟨hfmt, ?_, nodeHexDecode_length p hall, nodeHexDecode_odd p hodd⟩
    simp [decodeStep_hex, hfmt]
  · intro hd2
    have hdec : decodeStep "hex" [d] = .ok [] := by
      have hfmt : hexFormatOk [d] = true := by
        simp [hexFormatOk, hd2]
      simp [decodeStep_hex, hfmt, nodeHexDecode]
    exact processEncodedData_of_empty f none now w hdec

/-- C10 witness: the odd-length payload `abc` and the single digit `a`. -/
theorem C10_odd_hex_witness :
    (hexFormatOk (jsOfString "abc") = true ∧
      decodeStep "hex" (jsOfString "abc") =
        .ok (nodeHexDecode (jsOfString "abc")) ∧
      (nodeHexDecode (jsOfString "abc")).length =
        (jsOfString "abc").length / 2 ∧
      nodeHexDecode (jsOfString "abc") =
        nodeHexDecode ((jsOfString "abc").take
          ((jsOfString "abc").length - 1))) ∧
    processEncodedData [0x61] "hex" "file1" none 0 none =
      (.failure ⟨"file1", "hex", failMsg "hex" "Decoded data is empty"⟩, []) :=
  ⟨(C10_odd_hex (jsOfString "abc") 0x61 "file1" 0 none).1 (by decide)
      (by decide),
   (C10_odd_hex (jsOfString "abc") 0x61 "file1" 0 none).2 (by decide)⟩
